import Mathlib

/-!
Shallow embedding of `src/outputmain.cpp` (PythonCatalyst): two arithmetic
helpers `add` and `sub` over IEEE-754 binary64 values and the demo entry
point `main`.

Doubles are modelled exactly at the value level.  Every finite binary64
value is an integer multiple of 2⁻¹⁰⁷⁴; we represent it by that integer
(its number of "units").  Exact sums and differences of finite doubles are
again integer numbers of units, so IEEE addition and subtraction reduce to
integer arithmetic followed by correct rounding (round to nearest, ties to
even, overflow to infinity).  Signed zeros are collapsed to a single zero,
which is invisible to IEEE `==` and to every operation this program uses.
Console output is modelled as the list of printed lines; an out-of-bounds
vector subscript would surface as `none`.
-/

set_option exponentiation.threshold 5000
set_option maxRecDepth 4000

namespace PyCat

/-- Bit length of `n < 2 ^ 64` (0 for 0), by structural recursion on a fuel
bound so that it evaluates by kernel reduction. -/
def blenSmall : ℕ → ℕ → ℕ
  | 0, _ => 0
  | fuel + 1, n => if n = 0 then 0 else blenSmall fuel (n / 2) + 1

/-- Bit length of `n` (0 for 0), recursing over 64-bit chunks to keep the
reduction shallow; `fuel * 64` bits suffice, and every quantity this
program rounds is far below `2 ^ 4400`. -/
def blen : ℕ → ℕ → ℕ
  | 0, _ => 0
  | fuel + 1, n => if n < 2 ^ 64 then blenSmall 64 n else blen fuel (n / 2 ^ 64) + 64

/-- IEEE-754 binary64 datum at value level: `finite u` denotes the real
number `u · 2⁻¹⁰⁷⁴`; `inf b` is `-∞` when `b` is `true`, else `+∞`;
`nan` is NaN. -/
inductive FP where
  | finite (units : ℤ)
  | inf (neg : Bool)
  | nan
deriving DecidableEq, Repr

/-- Overflow threshold in units: the value 2¹⁰²⁴ is `2 ^ 2098` units. -/
def ovfl : ℕ := 2 ^ 2098

/-- Round the nonnegative rational `N / d` (measured in units of 2⁻¹⁰⁷⁴)
to the nearest multiple of the binary64 granularity at its magnitude,
ties to even.  The granularity exponent `e` is `bitlength - 53` of the
integer part (0 in the subnormal range); overflow is checked by callers. -/
def roundPos (N d : ℕ) : ℕ :=
  let e := blen 80 (N / d) - 53
  let D := d * 2 ^ e
  let q := N / D
  let r := N % D
  let q2 := if 2 * r > D ∨ (2 * r = D ∧ q % 2 = 1) then q + 1 else q
  q2 * 2 ^ e

/-- Round an exact signed result measured in units of 2⁻¹⁰⁷⁴ to a binary64
datum: the IEEE result of an operation whose exact value is `M · 2⁻¹⁰⁷⁴`. -/
def roundUnits (M : ℤ) : FP :=
  if M = 0 then FP.finite 0
  else
    let u := roundPos M.natAbs 1
    if ovfl ≤ u then FP.inf (decide (M < 0))
    else if M < 0 then FP.finite (-(u : ℤ)) else FP.finite (u : ℤ)

/-- The binary64 value of the decimal literal `n / 10 ^ k`, as the C++
front end converts `1.1`, `2.4` and `3.2` (round to nearest, ties to
even). -/
def ofDecimal (n : ℤ) (k : ℕ) : FP :=
  if n = 0 then FP.finite 0
  else
    let u := roundPos (n.natAbs * 2 ^ 1074) (10 ^ k)
    if ovfl ≤ u then FP.inf (decide (n < 0))
    else if n < 0 then FP.finite (-(u : ℤ)) else FP.finite (u : ℤ)

/-- Conversion of a C++ `int` to `double` (exact whenever `|n| < 2⁵³`). -/
def ofInt (n : ℤ) : FP := roundUnits (n * ((2 ^ 1074 : ℕ) : ℤ))

/-- IEEE negation. -/
def fpNeg : FP → FP
  | FP.finite u => FP.finite (-u)
  | FP.inf b => FP.inf (!b)
  | FP.nan => FP.nan

/-- IEEE binary64 addition: the C++ `+` on `double`. -/
def fpAdd : FP → FP → FP
  | FP.nan, _ => FP.nan
  | _, FP.nan => FP.nan
  | FP.inf b, FP.inf c => if b = c then FP.inf b else FP.nan
  | FP.inf b, FP.finite _ => FP.inf b
  | FP.finite _, FP.inf c => FP.inf c
  | FP.finite a, FP.finite b => roundUnits (a + b)

/-- IEEE binary64 subtraction: the C++ `-` on `double`.  On every pair of
binary64 data, `x - y` coincides with `x + (-y)`. -/
def fpSub (x y : FP) : FP := fpAdd x (fpNeg y)

/-- Is the datum a finite value? -/
def FP.isFinite : FP → Bool
  | FP.finite _ => true
  | _ => false

/-- One line printed to standard output: `cout << v << endl` for an `int`
or for a `double`. -/
inductive OutLine where
  | intLine (n : ℤ)
  | fpLine (x : FP)
deriving DecidableEq, Repr

/-- `double add(double val_a, double val_b)` from `src/outputmain.cpp`:
builds the vector `t = {1, 2, 3}`, prints `t[1]`, builds an unordered set
of three strings and immediately clears it, and returns `val_a + val_b`.
The result pairs the returned value with the lines printed during the
call; `none` models an out-of-bounds vector subscript. -/
def add (val_a val_b : FP) : Option (FP × List OutLine) :=
  let t : List ℤ := [1, 2, 3]
  match t.get? 1 with
  | none => none
  | some v =>
    let s : Finset String := {"a", "b", "c"}
    let _cleared : Finset String := ∅
    some (fpAdd val_a val_b, [OutLine.intLine v])

/-- `double sub(double val_a, double val_b)` from `src/outputmain.cpp`:
returns `val_a - val_b` and prints nothing; the result has the same shape
as `add` so the demo runner composes them uniformly. -/
def sub (val_a val_b : FP) : Option (FP × List OutLine) :=
  some (fpSub val_a val_b, [])

/-- `int main(int argc, char **argv)` from `src/outputmain.cpp`: runs the
three demo calls, printing each numeric result right after computing it,
and returns 0.  `argv` is accepted and ignored.  The result is the exit
code paired with every line printed, in order. -/
def main (argv : List String) : Option (ℤ × List OutLine) := do
  let (x, o1) ← add (ofDecimal 11 1) (ofDecimal 24 1)
  let a := ofDecimal 32 1
  let b : ℤ := 5
  let (y, o2) ← add a (ofInt b)
  let (s1, o3) ← sub a (ofInt b)
  let (s2, o4) ← sub (ofInt b) a
  let (z, o5) ← add s1 s2
  pure (0, o1 ++ [OutLine.fpLine x] ++ o2 ++ [OutLine.fpLine y] ++
    o3 ++ o4 ++ o5 ++ [OutLine.fpLine z])

/-- The composite expression `add(sub(a, b), sub(b, a))` exactly as the
demo runner computes `z` (keeping only the value). -/
def cancel (a b : FP) : Option FP := do
  let (s1, _) ← sub a b
  let (s2, _) ← sub b a
  let (z, _) ← add s1 s2
  pure z

/-- The largest finite binary64 value, `(2⁵³ - 1) · 2⁹⁷¹`, in units. -/
def maxD : FP := FP.finite (((2 ^ 53 - 1) * 2 ^ 2045 : ℕ) : ℤ)

/-- The full output of a run: `t[1] = 2` before each numeric result; the
results are exactly 3.5, the double nearest 8.2, and zero. -/
def demoOut : List OutLine :=
  [OutLine.intLine 2, OutLine.fpLine (FP.finite ((7 * 2 ^ 1073 : ℕ) : ℤ)),
   OutLine.intLine 2, OutLine.fpLine (FP.finite ((4616189618054758 * 2 ^ 1025 : ℕ) : ℤ)),
   OutLine.intLine 2, OutLine.fpLine (FP.finite 0)]

theorem cancel_eq (x y : FP) :
    cancel x y = some (fpAdd (fpSub x y) (fpSub y x)) := rfl

theorem fpSub_finite (a b : ℤ) :
    fpSub (FP.finite a) (FP.finite b) = roundUnits (a - b) := by
  simp only [fpSub, fpNeg, fpAdd, Int.sub_eq_add_neg]

theorem roundUnits_neg (M : ℤ) : roundUnits (-M) = fpNeg (roundUnits M) := by
  rcases lt_trichotomy M 0 with hlt | heq | hgt
  · have h1 : M ≠ 0 := by omega
    have h2 : (-M) ≠ 0 := by omega
    have h3 : ¬ (-M < 0) := by omega
    have h4 : (-M).natAbs = M.natAbs := Int.natAbs_neg M
    simp only [roundUnits, if_neg h1, if_neg h2, h4]
    by_cases h5 : ovfl ≤ roundPos M.natAbs 1
    · simp [h5, fpNeg, hlt, h3]
    · simp [h5, fpNeg, hlt, h3]
  · subst heq
    simp [roundUnits, fpNeg]
  · have h1 : M ≠ 0 := by omega
    have h2 : (-M) ≠ 0 := by omega
    have h3 : ¬ (M < 0) := by omega
    have h6 : (-M) < 0 := by omega
    have h4 : (-M).natAbs = M.natAbs := Int.natAbs_neg M
    simp only [roundUnits, if_neg h1, if_neg h2, h4]
    by_cases h5 : ovfl ≤ roundPos M.natAbs 1
    · simp [h5, fpNeg, h3, h6]
    · simp [h5, fpNeg, h3, h6]

theorem fpSub_neg_swap (a b : ℤ) :
    fpSub (FP.finite a) (FP.finite b) = fpNeg (fpSub (FP.finite b) (FP.finite a)) := by
  rw [fpSub_finite, fpSub_finite, ← roundUnits_neg]
  congr 1
  ring

theorem fpAdd_comm (x y : FP) : fpAdd x y = fpAdd y x := by
  cases x <;> cases y <;> try rfl
  · rename_i a b
    show roundUnits (a + b) = roundUnits (b + a)
    rw [Int.add_comm]
  · rename_i b c
    cases b <;> cases c <;> rfl

theorem main_eval (argv : List String) : main argv = some (0, demoOut) := by
  have h : main [] = some (0, demoOut) := by decide
  exact h

/-- C1 (counterexample): the claim says a full run prints exactly four
lines to standard output; in fact a run prints six lines (the vector
element 2 before each of the three numeric results), so the line count is
not four. -/
theorem C1_cex :
    (main []).map (fun p => p.2.length) = some 6 ∧ (6 : ℕ) ≠ 4 := by
  constructor
  · rw [main_eval]
    rfl
  · decide

/-- C1 (amended): a full run prints exactly six lines in fixed order, each
numeric result printed immediately after it is computed and preceded by
the incidental integer 2 from the container demonstration: 2, then 3.5
(`7 · 2⁻¹` exactly, from add(1.1, 2.4)), then 2, then the double nearest
8.2 (`4616189618054758 · 2⁻⁴⁹`, from add(3.2, 5)), then 2, then 0 (from
add(subtract(a,b), subtract(b,a))); the run exits with status 0. -/
theorem C1_thm (argv : List String) :
    main argv = some (0,
      [OutLine.intLine 2, OutLine.fpLine (FP.finite ((7 * 2 ^ 1073 : ℕ) : ℤ)),
       OutLine.intLine 2,
       OutLine.fpLine (FP.finite ((4616189618054758 * 2 ^ 1025 : ℕ) : ℤ)),
       OutLine.intLine 2, OutLine.fpLine (FP.finite 0)]) :=
  main_eval argv

/-- C2 (counterexample): the cancellation identity fails for the finite
values a = maxD (the largest finite double) and b = -maxD: subtract(a, b)
overflows to +infinity, subtract(b, a) to -infinity, and their sum is NaN,
which is not 0. -/
theorem C2_cex :
    (FP.isFinite maxD = true ∧ FP.isFinite (fpNeg maxD) = true) ∧
    cancel maxD (fpNeg maxD) = some FP.nan ∧ FP.nan ≠ FP.finite 0 :=
  ⟨⟨rfl, rfl⟩, by decide, by decide⟩

/-- C2 (amended): for all finite a and b whose difference does not
overflow (subtract(a, b) is finite), add(subtract(a,b), subtract(b,a))
equals 0. -/
theorem C2_thm (a b : ℤ)
    (h : FP.isFinite (fpSub (FP.finite a) (FP.finite b)) = true) :
    cancel (FP.finite a) (FP.finite b) = some (FP.finite 0) := by
  rw [cancel_eq]
  have hswap : fpSub (FP.finite b) (FP.finite a)
      = fpNeg (fpSub (FP.finite a) (FP.finite b)) := fpSub_neg_swap b a
  rcases hv : fpSub (FP.finite a) (FP.finite b) with v | s | _
  · rw [hv] at hswap
    rw [hswap]
    show some (roundUnits (v + -v)) = some (FP.finite 0)
    have hz : v + -v = 0 := by omega
    rw [hz]
    rfl
  · rw [hv] at h
    simp [FP.isFinite] at h
  · rw [hv] at h
    simp [FP.isFinite] at h

/-- C2 (witness): at a = 2¹⁰⁷⁴ units (the value 1.0) and b = 0 the
no-overflow hypothesis holds and the cancellation yields 0. -/
theorem C2_wit :
    FP.isFinite (fpSub (FP.finite ((2 ^ 1074 : ℕ) : ℤ)) (FP.finite 0)) = true ∧
    cancel (FP.finite ((2 ^ 1074 : ℕ) : ℤ)) (FP.finite 0) = some (FP.finite 0) :=
  ⟨by decide, C2_thm ((2 ^ 1074 : ℕ) : ℤ) 0 (by decide)⟩

/-- C3: add returns exactly the IEEE binary64 sum of its two arguments —
on finite values the correctly rounded exact sum — and the incidental
vector and set operations inside it have no effect on the returned
value. -/
theorem C3_thm :
    (∀ x y : FP, (add x y).map Prod.fst = some (fpAdd x y)) ∧
    ∀ a b : ℤ, (add (FP.finite a) (FP.finite b)).map Prod.fst
      = some (roundUnits (a + b)) :=
  ⟨fun x y => rfl, fun a b => rfl⟩

/-- C4: subtract returns exactly the IEEE binary64 difference a - b — on
finite values the correctly rounded exact difference — prints nothing,
and never fails. -/
theorem C4_thm (a b : ℤ) :
    sub (FP.finite a) (FP.finite b) = some (roundUnits (a - b), []) := by
  rw [sub, fpSub_finite]

/-- C5: add is commutative, and on finite values subtract is
antisymmetric: subtract(x, y) equals the negation of subtract(y, x). -/
theorem C5_thm :
    (∀ x y : FP, (add x y).map Prod.fst = (add y x).map Prod.fst) ∧
    ∀ a b : ℤ, (sub (FP.finite a) (FP.finite b)).map Prod.fst
      = ((sub (FP.finite b) (FP.finite a)).map Prod.fst).map fpNeg := by
  constructor
  · intro x y
    show some (fpAdd x y) = some (fpAdd y x)
    rw [fpAdd_comm]
  · intro a b
    show some (fpSub (FP.finite a) (FP.finite b))
      = some (fpNeg (fpSub (FP.finite b) (FP.finite a)))
    rw [fpSub_neg_swap]

/-- C6: every run exits with status 0: no argument vector produces a
non-zero exit code or a failing run. -/
theorem C6_thm (argv : List String) : (main argv).map Prod.fst = some 0 := by
  rw [main_eval]
  rfl

/-- C7: the program accepts and ignores its argument vector: any two
invocations produce identical output and exit code. -/
theorem C7_thm (argv1 argv2 : List String) : main argv1 = main argv2 := by
  rw [main_eval, main_eval]

/-- C8 (counterexample): add is not free of observable output — already at
the inputs 0 and 0 it prints the line 2, a nonempty output. -/
theorem C8_cex :
    (add (FP.finite 0) (FP.finite 0)).map Prod.snd = some [OutLine.intLine 2] ∧
    some [OutLine.intLine 2] ≠ some ([] : List OutLine) :=
  ⟨rfl, by decide⟩

/-- C8 (amended): the only side effect of add is printing the single line
2; it touches no other state, never fails, and its returned value is the
pure IEEE sum of its arguments. -/
theorem C8_thm (x y : FP) :
    add x y = some (fpAdd x y, [OutLine.intLine 2]) := rfl

/-- C9: every invocation of add, regardless of its arguments, prints
exactly the one line 2 before returning, and a full run therefore prints
2 three times, once immediately before each numeric result (`demoOut`
interleaves the three 2-lines with the three results). -/
theorem C9_thm :
    (∀ x y : FP, ∃ v : FP, add x y = some (v, [OutLine.intLine 2])) ∧
    ∀ argv : List String, (main argv).map Prod.snd = some demoOut := by
  constructor
  · intro x y
    exact ⟨fpAdd x y, rfl⟩
  · intro argv
    rw [main_eval]
    rfl

/-- C10: the container accesses inside add are safe for all inputs — the
subscript t[1] is within the bounds of the three-element vector, so add
never performs an out-of-bounds access and never fails. -/
theorem C10_thm :
    ([1, 2, 3] : List ℤ).get? 1 = some 2 ∧
    ∀ x y : FP, (add x y).isSome = true :=
  ⟨rfl, fun x y => rfl⟩

end PyCat
